import Mathlib

/-!
# flatnav-research: data types, the parallel executor and the index construction tool

A shallow embedding of

* `flatnav/util/Datatype.h` (`DataType`, `name`, `type`, `size`),
* `flatnav/util/ParallelConstructs.h` (`executeInParallel`),
* `tools/construct_npy.cpp` (`buildIndex`, `run`, `main`),

followed by the properties established about them.

Machine integers are `Nat`/`Int`. Unsigned arithmetic is reduced modulo `2 ^ 32`
where it can leave the range of its type; overflow of `int` arithmetic, which is
undefined in C++, ends the function concerned with the outcome `undefined`. The
classes that `construct_npy.cpp` calls are a parameter that says which calls raise.
-/

/-! ## Part I: definitions -/

/-- Exceptions that the embedded code raises: `std::invalid_argument` with its
message. -/
inductive Exception
  | invalid_argument (what : String)
  deriving DecidableEq, Repr

namespace flatnav.util

/-- The enumeration `DataType` of `Datatype.h`. -/
inductive DataType
  | uint8 | uint16 | uint32 | uint64
  | int8 | int16 | int32 | int64
  | float16 | float32 | float64
  | undefined
  deriving DecidableEq, Repr

/-- String representation of a data type (`name` in `Datatype.h`). -/
def name : DataType → String
  | .uint8 => "uint8"
  | .uint16 => "uint16"
  | .uint32 => "uint32"
  | .uint64 => "uint64"
  | .int8 => "int8"
  | .int16 => "int16"
  | .int32 => "int32"
  | .int64 => "int64"
  | .float16 => "float16"
  | .float32 => "float32"
  | .float64 => "float64"
  | .undefined => "undefined"

/-- Data type of a string representation (`type` in `Datatype.h`): a chain of
exact comparisons, falling through to `undefined`. -/
def type (data_type : String) : DataType :=
  if data_type = "uint8" then .uint8
  else if data_type = "uint16" then .uint16
  else if data_type = "uint32" then .uint32
  else if data_type = "uint64" then .uint64
  else if data_type = "int8" then .int8
  else if data_type = "int16" then .int16
  else if data_type = "int32" then .int32
  else if data_type = "int64" then .int64
  else if data_type = "float16" then .float16
  else if data_type = "float32" then .float32
  else if data_type = "float64" then .float64
  else .undefined

/-- Value of `sizeof(float)`, taken as 4. -/
def sizeof_float : Nat := 4

/-- Value of `sizeof(double)`, taken as 8. -/
def sizeof_double : Nat := 8

/-- Size of a data type in bytes (`size` in `Datatype.h`); the fixed-width integer
types have the sizes their names fix. -/
def size : DataType → Nat
  | .uint8 => 1
  | .uint16 => 2
  | .uint32 => 4
  | .uint64 => 8
  | .int8 => 1
  | .int16 => 2
  | .int32 => 4
  | .int64 => 8
  | .float16 => sizeof_float / 2
  | .float32 => sizeof_float
  | .float64 => sizeof_double
  | .undefined => 0

/-- The number written in decimal at the end of a string, after its leading
non-digit characters; `none` when the string holds no digit or the rest is not
made of digits only. -/
def decimalSuffix (s : String) : Option Nat :=
  match s.toList.dropWhile (fun c => !c.isDigit) with
  | [] => none
  | ds =>
    if ds.all Char.isDigit then
      some (ds.foldl (fun n c => 10 * n + (c.toNat - 48)) 0)
    else none

end flatnav.util

namespace flatnav

/-- Shared state of one call of `executeInParallel` once its threads exist.
`current` is the `std::atomic<uint32_t>` counter, `threads` has one entry per
`std::thread` (`true` while the thread is inside `while (true)`, `false` after its
`break`), `calls` lists the arguments `function` was applied to, in the order of
the fetches that produced them, and `env` is the state `function` acts on. -/
structure Exec (σ : Type) where
  current : Nat
  threads : List Bool
  calls : List Nat
  env : σ
  deriving DecidableEq, Repr

/-- What a call of `executeInParallel` has done to the outside when it ends:
the number of threads it started, the arguments `function` was applied to, and the
state `function` acts on. -/
structure Effects (σ : Type) where
  threads_started : Nat
  calls : List Nat
  env : σ
  deriving DecidableEq, Repr

/-- One iteration of the loop of `parallel_executor`, run by thread `id`:
the atomic `current.fetch_add(1)` on the 32-bit counter, then either the `break`
(the fetched index is `>= end_index`) or the application of `function`.
`none` when thread `id` does not exist or has left its loop. -/
def parallel_executor_step {σ : Type} (end_index : Nat) (function : Nat → σ → σ)
    (id : Nat) (s : Exec σ) : Option (Exec σ) :=
  if s.threads.getD id false then
    let current_vector_idx := s.current
    let current := (s.current + 1) % 2 ^ 32
    if current_vector_idx ≥ end_index then
      some { s with current := current, threads := s.threads.set id false }
    else
      some { s with current := current,
                    calls := s.calls ++ [current_vector_idx],
                    env := function current_vector_idx s.env }
  else none

/-- An interleaving: the threads named by `schedule` perform one loop iteration
each, in that order. `none` when the schedule names a thread that cannot move. -/
def runSchedule {σ : Type} (end_index : Nat) (function : Nat → σ → σ) :
    List Nat → Exec σ → Option (Exec σ)
  | [], s => some s
  | id :: rest, s =>
    match parallel_executor_step end_index function id s with
    | some s' => runSchedule end_index function rest s'
    | none => none

/-- State in which the threads of `executeInParallel` start: the counter holds
`start_index` and all `num_threads` threads are about to enter their loop. -/
def spawn {σ : Type} (start_index num_threads : Nat) (env : σ) : Exec σ :=
  { current := start_index, threads := List.replicate num_threads true,
    calls := [], env := env }

/-- Whether every thread has left its loop, so that every `join` returns. -/
def joined {σ : Type} (s : Exec σ) : Bool :=
  s.threads.all (fun running => !running)

/-- The function `executeInParallel` of `ParallelConstructs.h`, under the
interleaving `schedule`. The result is `none` when `schedule` is not a complete
interleaving (it names a thread that cannot move, or leaves a thread in its loop);
otherwise it is the way the call ends (normally or with an exception) and the
effects it had. -/
def executeInParallel {σ : Type} (start_index end_index num_threads : Nat)
    (function : Nat → σ → σ) (env : σ) (schedule : List Nat) :
    Option (Except Exception Unit × Effects σ) :=
  if num_threads = 0 then
    some (.error (.invalid_argument "Invalid number of threads"),
          { threads_started := 0, calls := [], env := env })
  else
    match runSchedule end_index function schedule (spawn start_index num_threads env) with
    | some s =>
      if joined s then
        some (.ok (), { threads_started := s.threads.length, calls := s.calls, env := s.env })
      else none
    | none => none

/-- The sequential loop `for (i = start_index; i < end_index; i++) function(i)`
on a 32-bit unsigned `i`, by the number of iterations still allowed: the arguments
`function` is applied to and the state it leaves are accumulated. -/
def sequentialLoopFrom {σ : Type} (end_index : Nat) (function : Nat → σ → σ) :
    Nat → Nat → List Nat × σ → List Nat × σ
  | 0, _, acc => acc
  | fuel + 1, i, acc =>
    if i < end_index then
      sequentialLoopFrom end_index function fuel ((i + 1) % 2 ^ 32)
        (acc.1 ++ [i], function i acc.2)
    else acc

/-- The sequential loop `for (i = start_index; i < end_index; i++) function(i)`;
`2 ^ 32` iterations are more than a 32-bit counter can make before reaching
`end_index`. -/
def sequentialLoop {σ : Type} (start_index end_index : Nat) (function : Nat → σ → σ)
    (env : σ) : List Nat × σ :=
  sequentialLoopFrom end_index function (2 ^ 32) start_index ([], env)

/-- Invariant of the states of `executeInParallel` while the counter has not
wrapped: `function` has been applied to an initial segment of the indices from
`start_index`, no thread has left its loop before the range was exhausted, and the
counter is `start_index` plus the number of fetches made. -/
structure ExecInv {σ : Type} (start_index end_index num_threads : Nat)
    (function : Nat → σ → σ) (env : σ) (s : Exec σ) : Prop where
  calls_eq : s.calls = List.range' start_index s.calls.length
  calls_le : start_index + s.calls.length ≤ max start_index end_index
  finished : 0 < s.threads.count false →
    start_index + s.calls.length = max start_index end_index
  current_eq : s.current = (start_index + s.calls.length + s.threads.count false) % 2 ^ 32
  threads_len : s.threads.length = num_threads
  env_eq : s.env = s.calls.foldl (fun e i => function i e) env

/-- Modelled from the spec: `METRIC_TYPE` is declared in a header that is not among
the sources; the metric type is one of euclidean and inner product. -/
inductive METRIC_TYPE
  | EUCLIDEAN
  | INNER_PRODUCT
  deriving DecidableEq, Repr

/-- Modelled from the spec: the distance and quantizer classes are defined in
headers that are not among the sources. An object is represented by its class, its
constructor arguments and, for a quantizer, the `num_vectors` argument of every
`train` call that has returned on it so far, oldest first. -/
inductive Distance
  | SquaredL2Distance (dim : Int)
  | InnerProductDistance (dim : Int)
  | ProductQuantizer (dim M nbits : Int) (metric_type : METRIC_TYPE) (trained : List Int)
  | LowPrecisionQuantizer (num_bits dim : Int) (metric_type : METRIC_TYPE)
      (trained : List Int)
  deriving DecidableEq, Repr

/-- The object after a call `train(vectors, num_vectors)` on it has returned: a
quantizer records the training. Whether the call returns or raises is not decided
here but by the `Collaborators` of the tool. -/
def Distance.trained : Distance → Int → Distance
  | .ProductQuantizer dim M nbits metric_type trained, num_vectors =>
    .ProductQuantizer dim M nbits metric_type (trained ++ [num_vectors])
  | .LowPrecisionQuantizer num_bits dim metric_type trained, num_vectors =>
    .LowPrecisionQuantizer num_bits dim metric_type (trained ++ [num_vectors])
  | d, _ => d

end flatnav

namespace construct_npy

open flatnav

/-- The calls that `construct_npy.cpp` makes on the distance, quantizer and index
classes, which are the observable behaviour of the tool. Pointers into the
dataset are element offsets from `data`. Writes to `std::clog` and the time
measurements are left out. -/
inductive Event
  | make_shared (object : Distance)
  | train (quantizer : Distance) (vectors : Int) (num_vectors : Int)
  | Index_new (dist : Distance) (dataset_size max_edges : Int)
  | add (data : Int) (label : Int) (ef_construction : Int)
  | saveIndex (filename : String)
  deriving DecidableEq, Repr

/-- Whether an event is a `train` call. -/
def Event.isTrain : Event → Bool
  | .train _ _ _ => true
  | _ => false

/-- Whether an event is the construction of an index. -/
def Event.isIndexNew : Event → Bool
  | .Index_new _ _ _ => true
  | _ => false

/-- Whether an event is an `add` call. -/
def Event.isAdd : Event → Bool
  | .add _ _ _ => true
  | _ => false

/-- How a function of the tool ends: it returns a value, an exception leaves it
(the source has no `try`), or its behaviour is undefined because an `int`
computation overflowed. -/
inductive Outcome (α : Type)
  | returned (value : α)
  | raised (e : Exception)
  | undefined
  deriving DecidableEq, Repr

/-- The classes the tool calls are not among the sources; their behaviour is a
parameter: given the calls made so far and the next call, the exception that this
call raises, or `none` when it returns. -/
abbrev Collaborators := List Event → Event → Option Exception

/-- Modelled from the spec: the failures the spec states for the classes the tool
calls. `train` on a product quantizer fails with an invalid-argument error when
the count is smaller than the `2 ^ nbits` centroids it must fit per subspace, and
`add` fails with an invalid-argument error when `ef_construction < 1`; every other
call returns. The messages are the spec's names of the two causes. -/
def specCollaborators : Collaborators := fun _ call =>
  match call with
  | .train (.ProductQuantizer _ _ nbits _ _) _ num_vectors =>
    if num_vectors < 2 ^ nbits.toNat then
      some (.invalid_argument "insufficient training samples for requested codebook size")
    else none
  | .add _ _ ef_construction =>
    if ef_construction < 1 then some (.invalid_argument "efConstruction < 1") else none
  | _ => none

/-- One call on a collaborator, followed by the rest of the function: the call is
recorded; when it raises, the exception leaves the function, otherwise the
function goes on. -/
def call {α : Type} (throws : Collaborators) (events : List Event) (e : Event)
    (rest : List Event → Outcome α × List Event) : Outcome α × List Event :=
  match throws events e with
  | some ex => (.raised ex, events ++ [e])
  | none => rest (events ++ [e])

/-- Sequencing of two parts of a function: the second part runs only when the
first has returned. -/
def andThen {α : Type} (first : Outcome Unit × List Event)
    (second : List Event → Outcome α × List Event) : Outcome α × List Event :=
  match first with
  | (.returned (), events) => second events
  | (.raised ex, events) => (.raised ex, events)
  | (.undefined, events) => (.undefined, events)

/-- Whether a value is in the range of `int`. -/
def fitsInt (x : Int) : Bool :=
  decide (-2147483648 ≤ x ∧ x ≤ 2147483647)

/-- Conversion of an integer value to `int`: the value reduced to the 32-bit two's
complement range. Unlike overflow in `int` arithmetic, the conversion of an
out-of-range value is not undefined. -/
def int32 (x : Int) : Int :=
  (x + 2147483648) % 4294967296 - 2147483648

/-- The loop `for (int label = 0; label < N; label++)` of `buildIndex`, by the
number of iterations still allowed: each iteration calls
`index->add(data + (dim * label), label, ef_construction)`. The products and
increments are `int` arithmetic, undefined when the result is out of range. -/
def buildIndexLoop (throws : Collaborators) (N dim ef_construction : Int) :
    Nat → Int → List Event → Outcome Unit × List Event
  | 0, _, events => (.returned (), events)
  | fuel + 1, label, events =>
    if label < N then
      if fitsInt (dim * label) then
        call throws events (Event.add (dim * label) label ef_construction) fun events =>
          if fitsInt (label + 1) then
            buildIndexLoop throws N dim ef_construction fuel (label + 1) events
          else (.undefined, events)
      else (.undefined, events)
    else (.returned (), events)

/-- The function `buildIndex` of `construct_npy.cpp`, started after the calls
`events`: how it ends and the calls made. An `int` counter makes fewer than
`2 ^ 31` iterations before it reaches `N`. -/
def buildIndex (throws : Collaborators) (distance : Distance)
    (N M dim ef_construction : Int) (save_file : String) (events : List Event) :
    Outcome Unit × List Event :=
  call throws events (Event.Index_new distance N M) fun events =>
    andThen (buildIndexLoop throws N dim ef_construction (2 ^ 31) 0 events) fun events =>
      call throws events (Event.saveIndex save_file) fun events =>
        (.returned (), events)

/-- The function `run` of `construct_npy.cpp`, started after the calls `events`:
how it ends and the calls made. -/
def run (throws : Collaborators) (metric_type : METRIC_TYPE)
    (N M dim ef_construction : Int) (save_file : String) (quantize : Int)
    (events : List Event) : Outcome Unit × List Event :=
  if quantize ≠ 0 then
    if quantize = 1 then
      let quantizer := Distance.ProductQuantizer dim 8 8 metric_type []
      call throws events (Event.make_shared quantizer) fun events =>
        call throws events (Event.train quantizer 0 N) fun events =>
          buildIndex throws (quantizer.trained N) N M dim ef_construction save_file events
    else if quantize = 2 then
      let quantizer := Distance.LowPrecisionQuantizer 8 dim metric_type []
      call throws events (Event.make_shared quantizer) fun events =>
        call throws events (Event.train quantizer 0 N) fun events =>
          buildIndex throws (quantizer.trained N) N M dim ef_construction save_file events
    else (.returned (), events)
  else
    match metric_type with
    | .EUCLIDEAN =>
      let distance := Distance.SquaredL2Distance dim
      call throws events (Event.make_shared distance) fun events =>
        buildIndex throws distance N M dim ef_construction save_file events
    | .INNER_PRODUCT =>
      let distance := Distance.InnerProductDistance dim
      call throws events (Event.make_shared distance) fun events =>
        buildIndex throws distance N M dim ef_construction save_file events

/-- The calls `add(data + dim * label, label, ef_construction)` for the labels
`0, ..., n - 1`, in ascending order. -/
def addCalls (dim ef_construction : Int) (n : Nat) : List Event :=
  (List.range n).map fun label : Nat => Event.add (dim * label) label ef_construction

/-- The calls that `buildIndex` is to make, in order: the construction of an empty
index with `dataset_size = N` and `max_edges = M`, the call `add` for each label
`0, ..., N - 1` with the row at element offset `dim * label`, and `saveIndex`. -/
def buildIndexCalls (distance : Distance) (N M dim ef_construction : Int)
    (save_file : String) : List Event :=
  Event.Index_new distance N M ::
    (addCalls dim ef_construction N.toNat ++ [Event.saveIndex save_file])

/-- A list of calls made one after the other, stopping at the first that raises:
the reading of "constructs, then calls `add` N times, then calls `saveIndex`"
against which `buildIndex` is compared. -/
def perform (throws : Collaborators) : List Event → List Event → Outcome Unit × List Event
  | [], events => (.returned (), events)
  | e :: rest, events => call throws events e (perform throws rest)

end construct_npy

/-! ## Part II: properties -/

/-! ### `Datatype.h` -/

namespace flatnav.util

/-- C6: converting a data type to its name and back gives the data type again, for
each of the eleven numeric types and `undefined`; consequently `name` is
injective. -/
theorem type_name_roundtrip :
    (∀ d : DataType, type (name d) = d) ∧ Function.Injective name := by
  have h : ∀ d : DataType, type (name d) = d := by
    intro d
    cases d <;> decide
  refine ⟨h, fun a b hab => ?_⟩
  rw [← h a, ← h b, hab]

/-- C7: `size` is the size in bytes: for every data type other than `undefined`,
eight times the size is the bit width written in decimal at the end of the name
(with `sizeof(float) = 4` and `sizeof(double) = 8`), the sizes are 1, 2, 4 and 8
bytes for the 8, 16, 32 and 64 bit types, and the size is 0 exactly for
`undefined`. -/
theorem size_in_bytes (d : DataType) :
    (d ≠ .undefined → decimalSuffix (name d) = some (8 * size d)) ∧
    (size d = 0 ↔ d = .undefined) ∧
    (d = .uint8 ∨ d = .int8 → size d = 1) ∧
    (d = .uint16 ∨ d = .int16 ∨ d = .float16 → size d = 2) ∧
    (d = .uint32 ∨ d = .int32 ∨ d = .float32 → size d = 4) ∧
    (d = .uint64 ∨ d = .int64 ∨ d = .float64 → size d = 8) := by
  cases d <;> decide

/-- Instance of `size_in_bytes` at `float16`, whose size is computed as
`sizeof(float) / 2`. -/
theorem size_in_bytes_witness :
    DataType.float16 ≠ DataType.undefined ∧
    decimalSuffix (name DataType.float16) = some (8 * size DataType.float16) ∧
    size DataType.float16 = 2 :=
  ⟨by decide, (size_in_bytes DataType.float16).1 (by decide),
   (size_in_bytes DataType.float16).2.2.2.1 (Or.inr (Or.inr rfl))⟩

/-- C8: `type` is total and recognises exactly the eleven type names: its result
is `undefined` if and only if the string is none of them (the comparison is exact,
hence case-sensitive), and on each of the eleven names and on "undefined" the name
of the result is the string itself. -/
theorem type_recognises_eleven_names (s : String) :
    (type s = .undefined ↔
      s ∉ ["uint8", "uint16", "uint32", "uint64", "int8", "int16", "int32", "int64",
           "float16", "float32", "float64"]) ∧
    (s ∈ ["undefined", "uint8", "uint16", "uint32", "uint64", "int8", "int16", "int32",
          "int64", "float16", "float32", "float64"] → name (type s) = s) := by
  refine ⟨⟨?_, ?_⟩, ?_⟩
  · intro h hs
    simp only [List.mem_cons, List.mem_singleton, List.mem_nil_iff, or_false] at hs
    rcases hs with h1 | h1 | h1 | h1 | h1 | h1 | h1 | h1 | h1 | h1 | h1 <;>
      subst h1 <;> revert h <;> decide
  · intro hs
    simp only [List.mem_cons, List.mem_singleton, List.mem_nil_iff, or_false, not_or] at hs
    obtain ⟨h1, h2, h3, h4, h5, h6, h7, h8, h9, h10, h11⟩ := hs
    unfold type
    simp only [if_neg h1, if_neg h2, if_neg h3, if_neg h4, if_neg h5, if_neg h6, if_neg h7,
      if_neg h8, if_neg h9, if_neg h10, if_neg h11]
  · intro hs
    simp only [List.mem_cons, List.mem_singleton, List.mem_nil_iff, or_false] at hs
    rcases hs with h1 | h1 | h1 | h1 | h1 | h1 | h1 | h1 | h1 | h1 | h1 | h1 <;>
      subst h1 <;> decide

/-- Instance of `type_recognises_eleven_names` at the name "int16", and at the
differently capitalised "Int16", which is not recognised. -/
theorem type_recognises_eleven_names_witness :
    name (type "int16") = "int16" ∧ type "Int16" = DataType.undefined :=
  ⟨(type_recognises_eleven_names "int16").2 (by decide),
   (type_recognises_eleven_names "Int16").1.mpr (by decide)⟩

end flatnav.util

/-! ### `ParallelConstructs.h` -/

namespace flatnav

/-- Marking a running thread as finished adds one finished thread. -/
theorem count_false_set (l : List Bool) (id : Nat) (h : l.getD id false = true) :
    (l.set id false).count false = l.count false + 1 := by
  induction l generalizing id with
  | nil => simp at h
  | cons b l ih =>
    cases id with
    | zero =>
      simp only [List.getD_cons_zero] at h
      subst h
      simp
    | succ n =>
      simp only [List.getD_cons_succ] at h
      have := ih n h
      cases b <;> simp [List.count_cons, this]

/-- While some thread is still in its loop, not all threads have finished. -/
theorem count_false_lt (l : List Bool) (id : Nat) (h : l.getD id false = true) :
    l.count false < l.length := by
  have h1 := count_false_set l id h
  have h2 : (l.set id false).count false ≤ (l.set id false).length := List.count_le_length _ _
  rw [h1, List.length_set] at h2
  omega

/-- A loop iteration is made by a running thread and is either a `break` or a call. -/
theorem step_cases {σ : Type} {end_index : Nat} {function : Nat → σ → σ} {id : Nat}
    {s s' : Exec σ} (h : parallel_executor_step end_index function id s = some s') :
    s.threads.getD id false = true ∧
    ((end_index ≤ s.current ∧
        s' = { s with current := (s.current + 1) % 2 ^ 32,
                      threads := s.threads.set id false }) ∨
     (s.current < end_index ∧
        s' = { s with current := (s.current + 1) % 2 ^ 32,
                      calls := s.calls ++ [s.current],
                      env := function s.current s.env })) := by
  unfold parallel_executor_step at h
  by_cases hr : s.threads.getD id false = true
  · refine ⟨hr, ?_⟩
    rw [if_pos hr] at h
    by_cases hc : s.current ≥ end_index
    · left
      simp only [if_pos hc, Option.some.injEq] at h
      exact ⟨hc, h.symm⟩
    · right
      simp only [if_neg hc, Option.some.injEq] at h
      exact ⟨by omega, h.symm⟩
  · rw [if_neg hr] at h
    exact absurd h (by simp)

/-- The invariant is kept by every loop iteration as long as the counter cannot wrap. -/
theorem ExecInv.step {σ : Type} {start_index end_index num_threads : Nat}
    {function : Nat → σ → σ} {env : σ} {id : Nat} {s s' : Exec σ}
    (hw : max start_index end_index + num_threads ≤ 2 ^ 32)
    (hinv : ExecInv start_index end_index num_threads function env s)
    (h : parallel_executor_step end_index function id s = some s') :
    ExecInv start_index end_index num_threads function env s' := by
  obtain ⟨hr, hcase⟩ := step_cases h
  have hlt := count_false_lt s.threads id hr
  have hset := count_false_set s.threads id hr
  obtain ⟨h1, h2, h3, h4, h5, h6⟩ := hinv
  have hcur : s.current = start_index + s.calls.length + s.threads.count false := by
    rw [h4]; apply Nat.mod_eq_of_lt; omega
  rcases hcase with ⟨hge, rfl⟩ | ⟨hlt', rfl⟩
  · have hfull : start_index + s.calls.length = max start_index end_index := by
      by_cases hz : 0 < s.threads.count false
      · exact h3 hz
      · have : start_index ≤ max start_index end_index := le_max_left _ _
        have : max start_index end_index ≤ start_index + s.calls.length := by
          apply max_le <;> omega
        omega
    refine ⟨h1, h2, fun _ => hfull, ?_, ?_, h6⟩
    · simp only [hset]; rw [hcur]; congr 1
    · simp only [List.length_set]; exact h5
  · have hz : s.threads.count false = 0 := by
      by_contra hne
      have := h3 (Nat.pos_of_ne_zero hne)
      have : end_index ≤ max start_index end_index := le_max_right _ _
      omega
    have hend : end_index ≤ max start_index end_index := le_max_right _ _
    refine ⟨?_, ?_, ?_, ?_, h5, ?_⟩
    · simp only [List.length_append, List.length_singleton]
      rw [List.range'_concat, ← h1, hcur, hz]
      simp
    · simp only [List.length_append, List.length_singleton]; omega
    · intro hpos; simp only [hz] at hpos; omega
    · simp only [List.length_append, List.length_singleton, hz]; rw [hcur, hz]; congr 1
    · simp only [List.foldl_append, List.foldl_cons, List.foldl_nil, ← h6]


/-- The invariant holds when the threads start. -/
theorem spawn_inv {σ : Type} (start_index end_index num_threads : Nat)
    (function : Nat → σ → σ) (env : σ) (hs : start_index < 2 ^ 32) :
    ExecInv start_index end_index num_threads function env
      (spawn start_index num_threads env) := by
  refine ⟨rfl, ?_, ?_, ?_, ?_, rfl⟩
  · simp [spawn]
  · intro h; simp [spawn, List.count_replicate] at h
  · show start_index = (start_index + 0 + (List.replicate num_threads true).count false) % 2 ^ 32
    rw [List.count_replicate, Nat.mod_eq_of_lt (by simpa using hs)]
    simp
  · simp [spawn]

/-- The invariant is kept along every interleaving as long as the counter cannot wrap. -/
theorem runSchedule_inv {σ : Type} {start_index end_index num_threads : Nat}
    {function : Nat → σ → σ} {env : σ}
    (hw : max start_index end_index + num_threads ≤ 2 ^ 32)
    (schedule : List Nat) (s s' : Exec σ)
    (hinv : ExecInv start_index end_index num_threads function env s)
    (h : runSchedule end_index function schedule s = some s') :
    ExecInv start_index end_index num_threads function env s' := by
  induction schedule generalizing s with
  | nil =>
    simp only [runSchedule, Option.some.injEq] at h
    exact h ▸ hinv
  | cons id rest ih =>
    simp only [runSchedule] at h
    cases hstep : parallel_executor_step end_index function id s with
    | none => rw [hstep] at h; exact absurd h (by simp)
    | some s1 =>
      rw [hstep] at h
      exact ih s1 (hinv.step hw hstep) h

/-- Every loop iteration adds either one call or one finished thread. -/
theorem runSchedule_length {σ : Type} {end_index : Nat} {function : Nat → σ → σ}
    (schedule : List Nat) (s s' : Exec σ)
    (h : runSchedule end_index function schedule s = some s') :
    s'.calls.length + s'.threads.count false =
      s.calls.length + s.threads.count false + schedule.length := by
  induction schedule generalizing s with
  | nil =>
    simp only [runSchedule, Option.some.injEq] at h
    subst h; simp
  | cons id rest ih =>
    simp only [runSchedule] at h
    cases hstep : parallel_executor_step end_index function id s with
    | none => rw [hstep] at h; exact absurd h (by simp)
    | some s1 =>
      rw [hstep] at h
      have h1 := ih s1 h
      obtain ⟨hr, hcase⟩ := step_cases hstep
      have hset := count_false_set s.threads id hr
      rcases hcase with ⟨_, rfl⟩ | ⟨_, rfl⟩
      · simp only [hset] at h1; simp only [List.length_cons]; omega
      · simp only [List.length_append, List.length_singleton] at h1
        simp only [List.length_cons]; omega

/-- Once all threads are joined, all of them have finished. -/
theorem joined_count {σ : Type} (s : Exec σ) (h : joined s = true) :
    s.threads.count false = s.threads.length := by
  unfold joined at h
  rw [List.count_eq_length]
  intro b hb
  have := List.all_eq_true.mp h b hb
  cases b <;> simp_all

/-- Under the invariant, once the threads are joined `function` has been applied to
the whole range in ascending order. -/
theorem joined_calls {σ : Type} {start_index end_index num_threads : Nat}
    {function : Nat → σ → σ} {env : σ} {s : Exec σ} (hn : 1 ≤ num_threads)
    (hinv : ExecInv start_index end_index num_threads function env s)
    (hj : joined s = true) :
    s.calls = List.range' start_index (end_index - start_index) ∧
    s.env = (List.range' start_index (end_index - start_index)).foldl
      (fun e i => function i e) env := by
  have hc := joined_count s hj
  have hfull := hinv.finished (by rw [hc, hinv.threads_len]; omega)
  have hlen : s.calls.length = end_index - start_index := by
    rcases le_total start_index end_index with hle | hle
    · rw [max_eq_right hle] at hfull; omega
    · rw [max_eq_left hle] at hfull; omega
  have hcalls := hinv.calls_eq
  rw [hlen] at hcalls
  exact ⟨hcalls, by rw [hinv.env_eq, hcalls]⟩


/-- A running thread that fetches an index at or beyond `end_index` leaves its loop. -/
theorem step_break {σ : Type} {end_index : Nat} {function : Nat → σ → σ} {id : Nat}
    {s : Exec σ} (hr : s.threads.getD id false = true) (hge : end_index ≤ s.current) :
    parallel_executor_step end_index function id s =
      some { s with current := (s.current + 1) % 2 ^ 32,
                    threads := s.threads.set id false } := by
  unfold parallel_executor_step
  rw [if_pos hr]
  exact if_pos hge

/-- A running thread that fetches an index below `end_index` applies `function` to it. -/
theorem step_call {σ : Type} {end_index : Nat} {function : Nat → σ → σ} {id : Nat}
    {s : Exec σ} (hr : s.threads.getD id false = true) (hlt : s.current < end_index) :
    parallel_executor_step end_index function id s =
      some { s with current := (s.current + 1) % 2 ^ 32,
                    calls := s.calls ++ [s.current],
                    env := function s.current s.env } := by
  unfold parallel_executor_step
  rw [if_pos hr]
  exact if_neg (by omega)

/-- An interleaving is run one loop iteration at a time. -/
theorem runSchedule_cons {σ : Type} {end_index : Nat} {function : Nat → σ → σ} {id : Nat}
    {s s1 : Exec σ} (rest : List Nat)
    (h : parallel_executor_step end_index function id s = some s1) :
    runSchedule end_index function (id :: rest) s =
      runSchedule end_index function rest s1 := by
  simp only [runSchedule, h]

/-- One thread that runs alone until its `break` applies `function` to the indices
from the counter up to `end_index`, in ascending order. -/
theorem runSchedule_single {σ : Type} (end_index : Nat) (function : Nat → σ → σ)
    (id : Nat) (he : end_index < 2 ^ 32) (n : Nat) (s : Exec σ)
    (hn : end_index - s.current = n)
    (hr : s.threads.getD id false = true) :
    runSchedule end_index function (List.replicate (n + 1) id) s =
      some { current := (max s.current end_index + 1) % 2 ^ 32,
             threads := s.threads.set id false,
             calls := s.calls ++ List.range' s.current n,
             env := (List.range' s.current n).foldl (fun e i => function i e) s.env } := by
  induction n generalizing s with
  | zero =>
    have hge : end_index ≤ s.current := by omega
    rw [List.replicate_succ, runSchedule_cons _ (step_break hr hge)]
    simp only [List.replicate, runSchedule, max_eq_left hge, List.range'_zero,
      List.append_nil, List.foldl_nil]
  | succ k ih =>
    have hlt : s.current < end_index := by omega
    have hmod : (s.current + 1) % 2 ^ 32 = s.current + 1 := Nat.mod_eq_of_lt (by omega)
    rw [List.replicate_succ, runSchedule_cons _ (step_call hr hlt), hmod]
    rw [ih { s with current := s.current + 1, calls := s.calls ++ [s.current],
                    env := function s.current s.env } (by simp only; omega) hr]
    have hmax : max (s.current + 1) end_index = max s.current end_index := by
      rw [max_eq_right (by omega), max_eq_right (by omega)]
    simp only [hmax, List.append_assoc, List.singleton_append, List.range'_succ,
      List.foldl_cons]


/-- With enough iterations allowed, the sequential loop applies `function` to the
indices from `i` up to `end_index`. -/
theorem sequentialLoopFrom_eq {σ : Type} (end_index : Nat) (function : Nat → σ → σ)
    (he : end_index < 2 ^ 32) (fuel i : Nat) (acc : List Nat × σ)
    (hf : end_index - i < fuel) :
    sequentialLoopFrom end_index function fuel i acc =
      (acc.1 ++ List.range' i (end_index - i),
       (List.range' i (end_index - i)).foldl (fun e j => function j e) acc.2) := by
  induction fuel generalizing i acc with
  | zero => omega
  | succ k ih =>
    unfold sequentialLoopFrom
    by_cases hlt : i < end_index
    · have hmod : (i + 1) % 2 ^ 32 = i + 1 := Nat.mod_eq_of_lt (by omega)
      have hsub : end_index - i = (end_index - (i + 1)) + 1 := by omega
      rw [if_pos hlt, hmod, ih (i + 1) _ (by omega), hsub]
      simp only [List.append_assoc, List.singleton_append, List.range'_succ, List.foldl_cons]
    · have hsub : end_index - i = 0 := by omega
      rw [if_neg hlt, hsub]
      simp

/-- The sequential loop applies `function` to `start_index, ..., end_index - 1` in
ascending order. -/
theorem sequentialLoop_eq {σ : Type} (start_index end_index : Nat)
    (function : Nat → σ → σ) (env : σ) (he : end_index < 2 ^ 32) :
    sequentialLoop start_index end_index function env =
      (List.range' start_index (end_index - start_index),
       (List.range' start_index (end_index - start_index)).foldl
          (fun e j => function j e) env) := by
  unfold sequentialLoop
  rw [sequentialLoopFrom_eq end_index function he (2 ^ 32) start_index ([], env) (by omega)]
  simp

/-- As long as the counter cannot wrap, every complete interleaving returns normally
with `function` applied to the range in ascending order of the fetches. -/
theorem executeInParallel_result {σ : Type} {start_index end_index num_threads : Nat}
    {function : Nat → σ → σ} {env : σ} (hs : start_index < 2 ^ 32)
    (hn : 1 ≤ num_threads) (hw : max start_index end_index + num_threads ≤ 2 ^ 32)
    (schedule : List Nat) (r : Except Exception Unit × Effects σ)
    (h : executeInParallel start_index end_index num_threads function env schedule = some r) :
    r = (.ok (), { threads_started := num_threads,
                   calls := List.range' start_index (end_index - start_index),
                   env := (List.range' start_index (end_index - start_index)).foldl
                      (fun e i => function i e) env }) := by
  unfold executeInParallel at h
  rw [if_neg (by omega)] at h
  cases hrun : runSchedule end_index function schedule (spawn start_index num_threads env) with
  | none => rw [hrun] at h; exact absurd h (by simp)
  | some s =>
    rw [hrun] at h
    have hinv := runSchedule_inv hw schedule _ s
      (spawn_inv start_index end_index num_threads function env hs) hrun
    by_cases hj : joined s = true
    · simp only [hj, if_true, Option.some.injEq] at h
      obtain ⟨hc, hv⟩ := joined_calls hn hinv hj
      rw [← h, hinv.threads_len, hc, hv]
    · simp only [hj] at h
      exact absurd h (by simp)

/-- Positive half of the executor contract: when the counter cannot wrap, i.e.
`end_index + num_threads ≤ 2 ^ 32`, every complete interleaving of at least one
thread returns normally having applied `function` to each index of
`[start_index, end_index)` exactly once and to no other index. -/
theorem executeInParallel_exactly_once_of_no_wrap {σ : Type}
    (start_index end_index num_threads : Nat) (function : Nat → σ → σ) (env : σ)
    (hse : start_index ≤ end_index) (hn : 1 ≤ num_threads)
    (hw : end_index + num_threads ≤ 2 ^ 32)
    (schedule : List Nat) (r : Except Exception Unit × Effects σ)
    (h : executeInParallel start_index end_index num_threads function env schedule = some r) :
    r.1 = .ok () ∧ r.2.threads_started = num_threads ∧
    ∀ i, r.2.calls.count i = if start_index ≤ i ∧ i < end_index then 1 else 0 := by
  have hr := executeInParallel_result (by omega) hn
    (by rw [max_eq_right hse]; exact hw) schedule r h
  subst hr
  refine ⟨rfl, rfl, fun i => ?_⟩
  show (List.range' start_index (end_index - start_index)).count i = _
  by_cases hi : start_index ≤ i ∧ i < end_index
  · rw [if_pos hi]
    exact List.count_eq_one_of_mem (List.nodup_range' _ _)
      (List.mem_range'_1.mpr ⟨hi.1, by omega⟩)
  · rw [if_neg hi]
    apply List.count_eq_zero_of_not_mem
    intro hm
    have := List.mem_range'_1.mp hm
    omega

/-- C1: with `num_threads = 0`, whatever the range, the function and the
interleaving, `executeInParallel` ends with the invalid-argument exception, having
started no thread and applied `function` to no index (the state `function` acts on
is untouched). -/
theorem executeInParallel_zero_threads_throws {σ : Type} (start_index end_index : Nat)
    (function : Nat → σ → σ) (env : σ) (schedule : List Nat) :
    executeInParallel start_index end_index 0 function env schedule =
      some (.error (.invalid_argument "Invalid number of threads"),
            { threads_started := 0, calls := [], env := env }) := by
  rfl

/-- A complete interleaving of at least one thread makes `executeInParallel` return
normally with the effects of the final state. -/
theorem executeInParallel_of_run {σ : Type} {start_index end_index num_threads : Nat}
    {function : Nat → σ → σ} {env : σ} {schedule : List Nat} {s : Exec σ}
    (hn : num_threads ≠ 0)
    (hrun : runSchedule end_index function schedule (spawn start_index num_threads env) =
      some s)
    (hj : joined s = true) :
    executeInParallel start_index end_index num_threads function env schedule =
      some (.ok (), { threads_started := s.threads.length, calls := s.calls, env := s.env }) := by
  unfold executeInParallel
  rw [if_neg hn, hrun]
  simp only [hj, if_true]

/-- C2, at `start_index = end_index = 4294967295` with two threads: the range is
empty, yet after thread 0 has fetched 4294967295 and left its loop the 32-bit
counter has wrapped to 0, so that thread 1 applies `function` to index 0 (first
part) and, running on until its own `break`, to every index `0, ..., 4294967294`
before the call returns normally (second part); index 0, which is outside the
range, has then been processed once (third part). -/
theorem executeInParallel_counter_wraps :
    runSchedule 4294967295 (fun _ (u : Unit) => u) [0, 1] (spawn 4294967295 2 ()) =
      some { current := 1, threads := [false, true], calls := [0], env := () } ∧
    executeInParallel 4294967295 4294967295 2 (fun _ (u : Unit) => u) ()
        (0 :: List.replicate 4294967296 1) =
      some (.ok (), { threads_started := 2, calls := List.range' 0 4294967295, env := () }) ∧
    (List.range' 0 4294967295).count 0 = 1 := by
  refine ⟨by decide, ?_, ?_⟩
  · have h0 : parallel_executor_step 4294967295 (fun _ (u : Unit) => u) 0
        (spawn 4294967295 2 ()) =
        some { current := 0, threads := [false, true], calls := [], env := () } := by
      decide
    have h1 := runSchedule_single 4294967295 (fun _ (u : Unit) => u) 1 (by decide)
      4294967295 { current := 0, threads := [false, true], calls := [], env := () }
      (by decide) (by decide)
    have hrun : runSchedule 4294967295 (fun _ (u : Unit) => u)
        (0 :: List.replicate 4294967296 1) (spawn 4294967295 2 ()) =
        some { current := 0, threads := [false, false],
               calls := List.range' 0 4294967295, env := () } := by
      rw [runSchedule_cons _ h0, h1]
      have ha : (max 0 4294967295 + 1) % 2 ^ 32 = 0 := by decide
      have hd : ∀ u : Unit, u = () := fun _ => rfl
      show some (Exec.mk ((max 0 4294967295 + 1) % 2 ^ 32) ([false, true].set 1 false)
        ([] ++ List.range' 0 4294967295) _) = _
      rw [ha, List.nil_append, hd (List.foldl _ _ _)]
      rfl
    exact executeInParallel_of_run (by decide) hrun rfl
  · exact List.count_eq_one_of_mem (List.nodup_range' _ _)
      (List.mem_range'_1.mpr ⟨by omega, by omega⟩)

/-- C9: with one thread and 32-bit `start_index` and `end_index`,
`executeInParallel` terminates and does what the sequential loop
`for (i = start_index; i < end_index; i++) function(i)` does: the interleaving in
which the thread runs until its `break` is complete and returns normally with the
calls and the final state of the sequential loop (nothing when
`start_index >= end_index`); every complete interleaving gives that same result;
every interleaving has at most `end_index - start_index + 1` steps, after which
either the thread has been joined or it can make its next step; and the calls of
the sequential loop are `start_index, ..., end_index - 1` in ascending order. -/
theorem executeInParallel_one_thread_sequential {σ : Type} (start_index end_index : Nat)
    (hs : start_index < 2 ^ 32) (he : end_index < 2 ^ 32)
    (function : Nat → σ → σ) (env : σ) :
    executeInParallel start_index end_index 1 function env
        (List.replicate (end_index - start_index + 1) 0) =
      some (.ok (), { threads_started := 1,
                      calls := (sequentialLoop start_index end_index function env).1,
                      env := (sequentialLoop start_index end_index function env).2 }) ∧
    (∀ schedule r,
      executeInParallel start_index end_index 1 function env schedule = some r →
      r = (.ok (), { threads_started := 1,
                     calls := (sequentialLoop start_index end_index function env).1,
                     env := (sequentialLoop start_index end_index function env).2 })) ∧
    (∀ schedule s,
      runSchedule end_index function schedule (spawn start_index 1 env) = some s →
      schedule.length ≤ end_index - start_index + 1 ∧
      (joined s = false → (parallel_executor_step end_index function 0 s).isSome = true)) ∧
    (sequentialLoop start_index end_index function env).1 =
      List.range' start_index (end_index - start_index) := by
  have hw : max start_index end_index + 1 ≤ 2 ^ 32 := by
    have : max start_index end_index < 2 ^ 32 := max_lt hs he
    omega
  rw [sequentialLoop_eq start_index end_index function env he]
  refine ⟨?_, ?_, ?_, rfl⟩
  · unfold executeInParallel
    rw [if_neg (by decide)]
    have h1 := runSchedule_single end_index function 0 he (end_index - start_index)
      (spawn start_index 1 env) rfl rfl
    rw [h1]
    rfl
  · intro schedule r h
    exact executeInParallel_result hs (le_refl 1) hw schedule r h
  · intro schedule s h
    have hinv := runSchedule_inv hw schedule _ s
      (spawn_inv start_index end_index 1 function env hs) h
    have hlen := runSchedule_length schedule _ s h
    have hcnt : s.threads.count false ≤ s.threads.length := List.count_le_length _ _
    have h2 := hinv.calls_le
    have h3 := hinv.threads_len
    constructor
    · have h0 : (spawn start_index 1 env).calls.length +
          (spawn start_index 1 env).threads.count false = 0 := by
        simp [spawn]
      rw [h0] at hlen
      rcases le_total start_index end_index with hle | hle
      · rw [max_eq_right hle] at h2; omega
      · rw [max_eq_left hle] at h2; omega
    · intro hj
      have hr : s.threads.getD 0 false = true := by
        unfold joined at hj
        match hth : s.threads, h3 with
        | [b], _ =>
          rw [hth] at hj
          cases b <;> simp_all
      unfold parallel_executor_step
      rw [if_pos hr]
      by_cases hc : s.current ≥ end_index
      · rw [if_pos hc]; rfl
      · rw [if_neg hc]; rfl

/-- Instance of `executeInParallel_one_thread_sequential` on the range `[3, 7)`
with a function that records its arguments, most recent first. -/
theorem executeInParallel_one_thread_sequential_witness :
    ((3 : Nat) < 2 ^ 32 ∧ (7 : Nat) < 2 ^ 32) ∧
    executeInParallel 3 7 1 (fun i (e : List Nat) => i :: e) [] (List.replicate 5 0) =
      some (.ok (), { threads_started := 1, calls := [3, 4, 5, 6], env := [6, 5, 4, 3] }) :=
  ⟨⟨by decide, by decide⟩,
   (executeInParallel_one_thread_sequential 3 7 (by decide) (by decide)
      (fun i (e : List Nat) => i :: e) []).1⟩

end flatnav

/-! ### `construct_npy.cpp` -/

namespace construct_npy

open flatnav

/-- A call that returns is recorded and the function goes on. -/
theorem call_none {α : Type} {throws : Collaborators} {events : List Event} {e : Event}
    (rest : List Event → Outcome α × List Event) (h : throws events e = none) :
    call throws events e rest = rest (events ++ [e]) := by
  simp only [call, h]

/-- A call that raises is recorded and its exception leaves the function. -/
theorem call_some {α : Type} {throws : Collaborators} {events : List Event} {e : Event}
    {ex : Exception} (rest : List Event → Outcome α × List Event)
    (h : throws events e = some ex) :
    call throws events e rest = (.raised ex, events ++ [e]) := by
  simp only [call, h]

/-- A call followed by two continuations that agree gives the same result. -/
theorem call_congr {α : Type} (throws : Collaborators) (events : List Event) (e : Event)
    (rest rest' : List Event → Outcome α × List Event)
    (h : ∀ events, rest events = rest' events) :
    call throws events e rest = call throws events e rest' := by
  unfold call
  cases throws events e with
  | none => exact h _
  | some ex => rfl

/-- Sequencing after a call is the call followed by the sequencing. -/
theorem andThen_call {α : Type} (throws : Collaborators) (events : List Event) (e : Event)
    (rest : List Event → Outcome Unit × List Event)
    (second : List Event → Outcome α × List Event) :
    andThen (call throws events e rest) second =
      call throws events e (fun events => andThen (rest events) second) := by
  unfold call
  cases throws events e <;> rfl

/-- Sequencing with a part that only returns changes nothing. -/
theorem andThen_returned (first : Outcome Unit × List Event) :
    andThen first (fun events => (.returned (), events)) = first := by
  obtain ⟨o, events⟩ := first
  cases o <;> rfl

/-- Performing two lists of calls one after the other. -/
theorem perform_append (throws : Collaborators) (xs ys : List Event) (events : List Event) :
    perform throws (xs ++ ys) events =
      andThen (perform throws xs events) (perform throws ys) := by
  induction xs generalizing events with
  | nil => rfl
  | cons x xs ih =>
    simp only [List.cons_append, perform, andThen_call]
    exact call_congr _ _ _ _ _ ih

/-- When none of the calls raises, all of them are made and the list returns. -/
theorem perform_of_none (throws : Collaborators) (calls events : List Event)
    (h : ∀ e ∈ calls, ∀ history, throws history e = none) :
    perform throws calls events = (.returned (), events ++ calls) := by
  induction calls generalizing events with
  | nil => simp [perform]
  | cons c cs ih =>
    simp only [perform]
    rw [call_none _ (h c (List.mem_cons_self c cs) events),
      ih _ (fun e he => h e (List.mem_cons_of_mem c he))]
    simp

/-- The calls made by `perform` are an initial segment of the list: all of it when
it returns, and the segment up to the raising call when an exception leaves it. -/
theorem perform_cases (throws : Collaborators) (calls events : List Event) :
    (perform throws calls events = (.returned (), events ++ calls)) ∨
    (∃ n c ex, calls[n]? = some c ∧ throws (events ++ calls.take n) c = some ex ∧
      perform throws calls events = (.raised ex, events ++ calls.take (n + 1))) := by
  induction calls generalizing events with
  | nil => left; simp [perform]
  | cons c cs ih =>
    simp only [perform]
    cases hc : throws events c with
    | some ex =>
      right
      refine ⟨0, c, ex, by simp, by simpa using hc, ?_⟩
      rw [call_some _ hc]
      simp
    | none =>
      rw [call_none _ hc]
      rcases ih (events ++ [c]) with h | ⟨n, c', ex, h1, h2, h3⟩
      · left; rw [h]; simp
      · right
        refine ⟨n + 1, c', ex, by simpa using h1, by simpa using h2, ?_⟩
        rw [h3]; simp

/-- Values between 0 and the largest `int` are in the range of `int`. -/
theorem fitsInt_of_range (x : Int) (h0 : 0 ≤ x) (h1 : x ≤ 2147483647) : fitsInt x = true := by
  unfold fitsInt
  exact decide_eq_true ⟨by omega, h1⟩

/-- One iteration of the loop of `buildIndex`. -/
theorem buildIndexLoop_succ (throws : Collaborators) (N dim ef_construction : Int)
    (fuel : Nat) (label : Int) (events : List Event) :
    buildIndexLoop throws N dim ef_construction (fuel + 1) label events =
      if label < N then
        if fitsInt (dim * label) then
          call throws events (Event.add (dim * label) label ef_construction) fun events =>
            if fitsInt (label + 1) then
              buildIndexLoop throws N dim ef_construction fuel (label + 1) events
            else (.undefined, events)
        else (.undefined, events)
      else (.returned (), events) := by
  rfl

/-- The first `K` iterations of the loop of `buildIndex`, when the row offsets of
the labels below `K` are in the range of `int`: the calls `add` for the labels from
`k` to `K - 1` are performed in order, and if none raises the loop goes on at
label `K`. -/
theorem buildIndexLoop_steps (throws : Collaborators) (N dim ef_construction : Int)
    (hN : N ≤ 2147483647) (hdim : 0 ≤ dim) (K : Nat) (hK : (K : Int) ≤ N)
    (hfit : ∀ label : Nat, label < K → dim * label ≤ 2147483647)
    (fuel n k : Nat) (hk : k + n = K) (events : List Event) :
    buildIndexLoop throws N dim ef_construction (fuel + n) k events =
      andThen (perform throws ((List.range' k n).map
          fun label : Nat => Event.add (dim * label) label ef_construction) events)
        (buildIndexLoop throws N dim ef_construction fuel K) := by
  induction n generalizing k events with
  | zero =>
    have : k = K := by omega
    subst this
    rfl
  | succ m ih =>
    have hlt : (k : Int) < N := by omega
    have h1 : fitsInt (dim * (k : Int)) = true :=
      fitsInt_of_range _ (mul_nonneg hdim (by omega)) (hfit k (by omega))
    have h2 : fitsInt ((k : Int) + 1) = true := fitsInt_of_range _ (by omega) (by omega)
    have hcast : ((k : Int) + 1) = ((k + 1 : Nat) : Int) := by push_cast; rfl
    rw [show fuel + (m + 1) = (fuel + m) + 1 from rfl, buildIndexLoop_succ,
      if_pos hlt, if_pos h1]
    simp only [h2, if_true, List.range'_succ, List.map_cons, perform, andThen_call]
    apply call_congr
    intro ev
    rw [hcast]
    exact ih (k + 1) (by omega) ev

/-- At a label that is not below `N` the loop of `buildIndex` returns. -/
theorem buildIndexLoop_done (throws : Collaborators) (N dim ef_construction : Int)
    (fuel : Nat) (label : Int) (events : List Event) (h : N ≤ label) :
    buildIndexLoop throws N dim ef_construction (fuel + 1) label events =
      (.returned (), events) := by
  rw [buildIndexLoop_succ, if_neg (by omega)]

/-- At a label below `N` whose row offset is out of the range of `int` the
behaviour of the loop of `buildIndex` is undefined. -/
theorem buildIndexLoop_overflow (throws : Collaborators) (N dim ef_construction : Int)
    (fuel : Nat) (label : Int) (events : List Event) (h : label < N)
    (hfit : fitsInt (dim * label) = false) :
    buildIndexLoop throws N dim ef_construction (fuel + 1) label events =
      (.undefined, events) := by
  rw [buildIndexLoop_succ, if_pos h, hfit]
  rfl

/-- When no row offset leaves the range of `int`, the loop of `buildIndex` performs
the calls `add` for the labels `0, ..., N - 1` in ascending order. -/
theorem buildIndexLoop_eq_perform (throws : Collaborators) (N dim ef_construction : Int)
    (hN0 : 0 ≤ N) (hN : N ≤ 2147483647) (hdim : 0 ≤ dim)
    (hov : dim * (N - 1) ≤ 2147483647) (events : List Event) :
    buildIndexLoop throws N dim ef_construction (2 ^ 31) 0 events =
      perform throws (addCalls dim ef_construction N.toNat) events := by
  have hK : ((N.toNat : Nat) : Int) = N := Int.toNat_of_nonneg hN0
  have hfit : ∀ label : Nat, label < N.toNat → dim * (label : Int) ≤ 2147483647 := by
    intro label hl
    have h1 : (label : Int) ≤ N - 1 := by omega
    exact le_trans (mul_le_mul_of_nonneg_left h1 hdim) hov
  obtain ⟨fuel, hfuel⟩ : ∃ fuel : Nat, 2 ^ 31 = (fuel + 1) + N.toNat :=
    ⟨2 ^ 31 - 1 - N.toNat, by omega⟩
  have h := buildIndexLoop_steps throws N dim ef_construction hN hdim N.toNat (le_of_eq hK)
    hfit (fuel + 1) N.toNat 0 (by omega) events
  rw [hfuel, Nat.cast_zero] at *
  rw [h]
  have hdone : buildIndexLoop throws N dim ef_construction (fuel + 1) (N.toNat : Int) =
      fun events => (.returned (), events) := by
    funext ev
    exact buildIndexLoop_done throws N dim ef_construction fuel _ ev (le_of_eq hK.symm)
  rw [hdone, andThen_returned, addCalls, List.range_eq_range']

/-- When no row offset leaves the range of `int`, `buildIndex` performs, in this
order, the construction of the index, the calls `add` for the labels
`0, ..., N - 1` and the call `saveIndex`, up to the first call that raises. -/
theorem buildIndex_eq_perform (throws : Collaborators) (distance : Distance)
    (N M dim ef_construction : Int) (save_file : String)
    (hN0 : 0 ≤ N) (hN : N ≤ 2147483647) (hdim : 0 ≤ dim)
    (hov : dim * (N - 1) ≤ 2147483647) (events : List Event) :
    buildIndex throws distance N M dim ef_construction save_file events =
      perform throws (Event.Index_new distance N M ::
        (addCalls dim ef_construction N.toNat ++ [Event.saveIndex save_file])) events := by
  unfold buildIndex
  simp only [perform]
  apply call_congr
  intro ev
  rw [buildIndexLoop_eq_perform throws N dim ef_construction hN0 hN hdim hov, perform_append]
  rfl

/-- The loop of `buildIndex` only appends calls of `add` to the calls made so
far. -/
theorem buildIndexLoop_events (throws : Collaborators) (N dim ef_construction : Int)
    (fuel : Nat) (label : Int) (events : List Event) :
    ∃ extra, (buildIndexLoop throws N dim ef_construction fuel label events).2 =
        events ++ extra ∧ ∀ e ∈ extra, e.isAdd = true := by
  induction fuel generalizing label events with
  | zero => exact ⟨[], by simp [buildIndexLoop], by simp⟩
  | succ f ih =>
    rw [buildIndexLoop_succ]
    by_cases hlt : label < N
    · rw [if_pos hlt]
      by_cases hfit : fitsInt (dim * label) = true
      · rw [if_pos hfit]
        unfold call
        cases throws events (Event.add (dim * label) label ef_construction) with
        | some ex =>
          exact ⟨[Event.add (dim * label) label ef_construction], rfl, by simp [Event.isAdd]⟩
        | none =>
          by_cases hnext : fitsInt (label + 1) = true
          · simp only [hnext, if_true]
            obtain ⟨extra, h1, h2⟩ := ih (label + 1)
              (events ++ [Event.add (dim * label) label ef_construction])
            refine ⟨Event.add (dim * label) label ef_construction :: extra, ?_, ?_⟩
            · rw [h1]; simp
            · intro e he
              rcases List.mem_cons.mp he with rfl | he
              · rfl
              · exact h2 e he
          · simp only [hnext]
            exact ⟨[Event.add (dim * label) label ef_construction], rfl,
              by simp [Event.isAdd]⟩
      · rw [if_neg hfit]
        exact ⟨[], by simp, by simp⟩
    · rw [if_neg hlt]
      exact ⟨[], by simp, by simp⟩

/-- The first call of `buildIndex` is the construction of the index; no later call
trains a quantizer or constructs an index. -/
theorem buildIndex_shape (throws : Collaborators) (distance : Distance)
    (N M dim ef_construction : Int) (save_file : String) (events : List Event) :
    ∃ rest, (buildIndex throws distance N M dim ef_construction save_file events).2 =
        events ++ Event.Index_new distance N M :: rest ∧
      ∀ e ∈ rest, e.isTrain = false ∧ e.isIndexNew = false := by
  unfold buildIndex call
  cases throws events (Event.Index_new distance N M) with
  | some ex => exact ⟨[], by simp, by simp⟩
  | none =>
    simp only []
    obtain ⟨extra, h1, h2⟩ := buildIndexLoop_events throws N dim ef_construction (2 ^ 31) 0
      (events ++ [Event.Index_new distance N M])
    have hadd : ∀ e ∈ extra, e.isTrain = false ∧ e.isIndexNew = false := by
      intro e he
      have := h2 e he
      cases e <;> simp_all [Event.isAdd, Event.isTrain, Event.isIndexNew]
    generalize buildIndexLoop throws N dim ef_construction (2 ^ 31) 0
      (events ++ [Event.Index_new distance N M]) = r at h1
    obtain ⟨o, ev⟩ := r
    simp only at h1
    subst h1
    cases o with
    | returned u =>
      simp only [andThen]
      cases throws (events ++ [Event.Index_new distance N M] ++ extra)
          (Event.saveIndex save_file) with
      | some ex =>
        refine ⟨extra ++ [Event.saveIndex save_file], by simp, ?_⟩
        intro e he
        rcases List.mem_append.mp he with he | he
        · exact hadd e he
        · rw [List.mem_singleton.mp he]; exact ⟨rfl, rfl⟩
      | none =>
        refine ⟨extra ++ [Event.saveIndex save_file], by simp, ?_⟩
        intro e he
        rcases List.mem_append.mp he with he | he
        · exact hadd e he
        · rw [List.mem_singleton.mp he]; exact ⟨rfl, rfl⟩
    | raised ex => exact ⟨extra, by simp [andThen], hadd⟩
    | undefined => exact ⟨extra, by simp [andThen], hadd⟩

/-- A list of calls none of which trains or constructs passes the check of that. -/
theorem all_not_train_indexNew (rest : List Event)
    (h : ∀ e ∈ rest, e.isTrain = false ∧ e.isIndexNew = false) :
    rest.all (fun e => !e.isTrain && !e.isIndexNew) = true := by
  rw [List.all_eq_true]
  intro e he
  obtain ⟨h1, h2⟩ := h e he
  rw [h1, h2]
  rfl

/-- The part of `run` for a quantization mode: the quantizer is created, trained
on the `N` vectors at `data`, and passed to `buildIndex`; each step is made only
when the one before has returned. -/
theorem quantized_run_shape (throws : Collaborators) (quantizer : Distance)
    (N M dim ef_construction : Int) (save_file : String)
    (r : Outcome Unit × List Event)
    (hr : r = call throws [] (Event.make_shared quantizer) fun events =>
      call throws events (Event.train quantizer 0 N) fun events =>
        buildIndex throws (quantizer.trained N) N M dim ef_construction save_file events) :
    r.2.take 1 = [Event.make_shared quantizer] ∧
    (∀ ex, throws [] (Event.make_shared quantizer) = some ex →
      r = (.raised ex, [Event.make_shared quantizer])) ∧
    (throws [] (Event.make_shared quantizer) = none →
      r.2.take 2 = [Event.make_shared quantizer, Event.train quantizer 0 N] ∧
      (∀ ex, throws [Event.make_shared quantizer] (Event.train quantizer 0 N) = some ex →
        r = (.raised ex, [Event.make_shared quantizer, Event.train quantizer 0 N])) ∧
      (throws [Event.make_shared quantizer] (Event.train quantizer 0 N) = none →
        r.2.take 3 = [Event.make_shared quantizer, Event.train quantizer 0 N,
          Event.Index_new (quantizer.trained N) N M])) ∧
    (r.2.drop 2).all (fun e => !e.isTrain) = true ∧
    (r.2.drop 3).all (fun e => !e.isTrain && !e.isIndexNew) = true := by
  subst hr
  cases h1 : throws [] (Event.make_shared quantizer) with
  | some ex =>
    rw [call_some _ h1]
    refine ⟨rfl, fun ex' h => ?_, fun h => absurd h (by simp), rfl, rfl⟩
    rw [Option.some.inj h]
    rfl
  | none =>
    rw [call_none _ h1]
    cases h2 : throws ([] ++ [Event.make_shared quantizer]) (Event.train quantizer 0 N) with
    | some ex =>
      rw [call_some _ h2]
      refine ⟨rfl, fun ex' h => absurd h (by simp), fun _ => ⟨rfl, fun ex' h => ?_,
        fun h => ?_⟩, rfl, rfl⟩
      · have h' : some ex = some ex' := h2.symm.trans h
        rw [Option.some.inj h']
        rfl
      · have h' : some ex = none := h2.symm.trans h
        exact absurd h' (by simp)
    | none =>
      rw [call_none _ h2]
      obtain ⟨rest, h3, h4⟩ := buildIndex_shape throws (quantizer.trained N) N M dim
        ef_construction save_file ([] ++ [Event.make_shared quantizer] ++
          [Event.train quantizer 0 N])
      rw [h3]
      have hall := all_not_train_indexNew rest h4
      refine ⟨rfl, fun ex' h => absurd h (by simp), fun _ => ⟨rfl, fun ex' h => ?_,
        fun _ => rfl⟩, ?_, ?_⟩
      · have h' : (none : Option Exception) = some ex' := h2.symm.trans h
        exact absurd h' (by simp)
      · simp only [List.nil_append, List.cons_append, List.drop_succ_cons, List.drop_zero]
        rw [List.all_eq_true]
        intro e he
        rcases List.mem_cons.mp he with rfl | he
        · rfl
        · rw [(h4 e he).1]
          rfl
      · simp only [List.nil_append, List.cons_append, List.drop_succ_cons, List.drop_zero]
        exact hall

/-- The part of `run` without quantization: the distance is created and passed to
`buildIndex`; no call trains a quantizer. -/
theorem plain_run_shape (throws : Collaborators) (distance : Distance)
    (N M dim ef_construction : Int) (save_file : String)
    (r : Outcome Unit × List Event)
    (hr : r = call throws [] (Event.make_shared distance) fun events =>
      buildIndex throws distance N M dim ef_construction save_file events) :
    r.2.take 1 = [Event.make_shared distance] ∧
    (throws [] (Event.make_shared distance) = none →
      r.2.take 2 = [Event.make_shared distance, Event.Index_new distance N M]) ∧
    r.2.all (fun e => !e.isTrain) = true ∧
    (r.2.drop 2).all (fun e => !e.isIndexNew) = true := by
  subst hr
  cases h1 : throws [] (Event.make_shared distance) with
  | some ex =>
    rw [call_some _ h1]
    exact ⟨rfl, fun h => absurd h (by simp), rfl, rfl⟩
  | none =>
    rw [call_none _ h1]
    obtain ⟨rest, h3, h4⟩ := buildIndex_shape throws distance N M dim
      ef_construction save_file ([] ++ [Event.make_shared distance])
    rw [h3]
    refine ⟨rfl, fun _ => rfl, ?_, ?_⟩
    · simp only [List.nil_append, List.cons_append]
      rw [List.all_eq_true]
      intro e he
      rcases List.mem_cons.mp he with rfl | he
      · rfl
      · rcases List.mem_cons.mp he with rfl | he
        · rfl
        · rw [(h4 e he).1]
          rfl
    · simp only [List.nil_append, List.cons_append, List.drop_succ_cons, List.drop_zero]
      rw [List.all_eq_true]
      intro e he
      rw [(h4 e he).2]
      rfl

/-- C4, amended: for `quantize = 1` and `quantize = 2`, whatever the metric type,
`N` and `dim`, the first call of `run` creates an untrained quantizer; if that
returns, the second call is `train` on it with the whole dataset (`data`, `N`);
if `train` raises, as it does when `N` is too small, the exception leaves `run`
and no index is constructed and nothing inserted; if `train` returns, the third
call constructs the index with that quantizer, now trained once on `N` vectors.
No other call trains a quantizer and no later call constructs an index, so every
`add` comes after the one completed training. For `quantize = 0` no call trains a
quantizer; the first call creates the squared-Euclidean distance for `EUCLIDEAN`
and the inner-product distance for `INNER_PRODUCT` and, if that returns, the
second constructs the index with it. -/
theorem run_trains_quantizer_before_index (throws : Collaborators)
    (metric_type : METRIC_TYPE) (N M dim ef_construction : Int) (save_file : String) :
    ((run throws metric_type N M dim ef_construction save_file 1 []).2.take 1 =
       [Event.make_shared (.ProductQuantizer dim 8 8 metric_type [])] ∧
     (∀ ex, throws [] (Event.make_shared (.ProductQuantizer dim 8 8 metric_type [])) = some ex →
       run throws metric_type N M dim ef_construction save_file 1 [] =
         (.raised ex, [Event.make_shared (.ProductQuantizer dim 8 8 metric_type [])])) ∧
     (throws [] (Event.make_shared (.ProductQuantizer dim 8 8 metric_type [])) = none →
       (run throws metric_type N M dim ef_construction save_file 1 []).2.take 2 =
         [Event.make_shared (.ProductQuantizer dim 8 8 metric_type []),
          Event.train (.ProductQuantizer dim 8 8 metric_type []) 0 N] ∧
       (∀ ex, throws [Event.make_shared (.ProductQuantizer dim 8 8 metric_type [])]
             (Event.train (.ProductQuantizer dim 8 8 metric_type []) 0 N) = some ex →
         run throws metric_type N M dim ef_construction save_file 1 [] =
           (.raised ex, [Event.make_shared (.ProductQuantizer dim 8 8 metric_type []),
                         Event.train (.ProductQuantizer dim 8 8 metric_type []) 0 N])) ∧
       (throws [Event.make_shared (.ProductQuantizer dim 8 8 metric_type [])]
             (Event.train (.ProductQuantizer dim 8 8 metric_type []) 0 N) = none →
         (run throws metric_type N M dim ef_construction save_file 1 []).2.take 3 =
           [Event.make_shared (.ProductQuantizer dim 8 8 metric_type []),
            Event.train (.ProductQuantizer dim 8 8 metric_type []) 0 N,
            Event.Index_new (.ProductQuantizer dim 8 8 metric_type [N]) N M])) ∧
     ((run throws metric_type N M dim ef_construction save_file 1 []).2.drop 2).all
       (fun e => !e.isTrain) = true ∧
     ((run throws metric_type N M dim ef_construction save_file 1 []).2.drop 3).all
       (fun e => !e.isTrain && !e.isIndexNew) = true) ∧
    ((run throws metric_type N M dim ef_construction save_file 2 []).2.take 1 =
       [Event.make_shared (.LowPrecisionQuantizer 8 dim metric_type [])] ∧
     (∀ ex,
         throws [] (Event.make_shared (.LowPrecisionQuantizer 8 dim metric_type [])) = some ex →
       run throws metric_type N M dim ef_construction save_file 2 [] =
         (.raised ex, [Event.make_shared (.LowPrecisionQuantizer 8 dim metric_type [])])) ∧
     (throws [] (Event.make_shared (.LowPrecisionQuantizer 8 dim metric_type [])) = none →
       (run throws metric_type N M dim ef_construction save_file 2 []).2.take 2 =
         [Event.make_shared (.LowPrecisionQuantizer 8 dim metric_type []),
          Event.train (.LowPrecisionQuantizer 8 dim metric_type []) 0 N] ∧
       (∀ ex, throws [Event.make_shared (.LowPrecisionQuantizer 8 dim metric_type [])]
             (Event.train (.LowPrecisionQuantizer 8 dim metric_type []) 0 N) = some ex →
         run throws metric_type N M dim ef_construction save_file 2 [] =
           (.raised ex, [Event.make_shared (.LowPrecisionQuantizer 8 dim metric_type []),
                         Event.train (.LowPrecisionQuantizer 8 dim metric_type []) 0 N])) ∧
       (throws [Event.make_shared (.LowPrecisionQuantizer 8 dim metric_type [])]
             (Event.train (.LowPrecisionQuantizer 8 dim metric_type []) 0 N) = none →
         (run throws metric_type N M dim ef_construction save_file 2 []).2.take 3 =
           [Event.make_shared (.LowPrecisionQuantizer 8 dim metric_type []),
            Event.train (.LowPrecisionQuantizer 8 dim metric_type []) 0 N,
            Event.Index_new (.LowPrecisionQuantizer 8 dim metric_type [N]) N M])) ∧
     ((run throws metric_type N M dim ef_construction save_file 2 []).2.drop 2).all
       (fun e => !e.isTrain) = true ∧
     ((run throws metric_type N M dim ef_construction save_file 2 []).2.drop 3).all
       (fun e => !e.isTrain && !e.isIndexNew) = true) ∧
    ((run throws .EUCLIDEAN N M dim ef_construction save_file 0 []).2.take 1 =
       [Event.make_shared (.SquaredL2Distance dim)] ∧
     (throws [] (Event.make_shared (.SquaredL2Distance dim)) = none →
       (run throws .EUCLIDEAN N M dim ef_construction save_file 0 []).2.take 2 =
         [Event.make_shared (.SquaredL2Distance dim),
          Event.Index_new (.SquaredL2Distance dim) N M]) ∧
     (run throws .EUCLIDEAN N M dim ef_construction save_file 0 []).2.all
       (fun e => !e.isTrain) = true ∧
     ((run throws .EUCLIDEAN N M dim ef_construction save_file 0 []).2.drop 2).all
       (fun e => !e.isIndexNew) = true) ∧
    ((run throws .INNER_PRODUCT N M dim ef_construction save_file 0 []).2.take 1 =
       [Event.make_shared (.InnerProductDistance dim)] ∧
     (throws [] (Event.make_shared (.InnerProductDistance dim)) = none →
       (run throws .INNER_PRODUCT N M dim ef_construction save_file 0 []).2.take 2 =
         [Event.make_shared (.InnerProductDistance dim),
          Event.Index_new (.InnerProductDistance dim) N M]) ∧
     (run throws .INNER_PRODUCT N M dim ef_construction save_file 0 []).2.all
       (fun e => !e.isTrain) = true ∧
     ((run throws .INNER_PRODUCT N M dim ef_construction save_file 0 []).2.drop 2).all
       (fun e => !e.isIndexNew) = true) := by
  refine ⟨?_, ?_, ?_, ?_⟩
  · exact quantized_run_shape throws (.ProductQuantizer dim 8 8 metric_type []) N M dim
      ef_construction save_file _ rfl
  · exact quantized_run_shape throws (.LowPrecisionQuantizer 8 dim metric_type []) N M dim
      ef_construction save_file _ rfl
  · exact plain_run_shape throws (.SquaredL2Distance dim) N M dim ef_construction
      save_file _ rfl
  · exact plain_run_shape throws (.InnerProductDistance dim) N M dim ef_construction
      save_file _ rfl

/-- Instance of `run_trains_quantizer_before_index` with the failures of the spec
and product quantization: on 300 vectors `train` returns and the index is
constructed with the trained quantizer; on no vector `train` raises. -/
theorem run_trains_quantizer_before_index_witness :
    (run specCollaborators .EUCLIDEAN 300 16 16 100 "index.bin" 1 []).2.take 3 =
      [Event.make_shared (.ProductQuantizer 16 8 8 .EUCLIDEAN []),
       Event.train (.ProductQuantizer 16 8 8 .EUCLIDEAN []) 0 300,
       Event.Index_new (.ProductQuantizer 16 8 8 .EUCLIDEAN [300]) 300 16] ∧
    run specCollaborators .EUCLIDEAN 0 16 16 100 "index.bin" 1 [] =
      (.raised
         (.invalid_argument "insufficient training samples for requested codebook size"),
       [Event.make_shared (.ProductQuantizer 16 8 8 .EUCLIDEAN []),
        Event.train (.ProductQuantizer 16 8 8 .EUCLIDEAN []) 0 0]) :=
  ⟨((run_trains_quantizer_before_index specCollaborators .EUCLIDEAN 300 16 16 100
      "index.bin").1.2.2.1 rfl).2.2 (by decide),
   ((run_trains_quantizer_before_index specCollaborators .EUCLIDEAN 0 16 16 100
      "index.bin").1.2.2.1 rfl).2.1 _ (by decide)⟩

/-- C4 fails when training fails: with the failures of the spec, product
quantization of 5 vectors makes `train` raise, since 256 centroids cannot be fitted
to 5 samples; training does not complete, and no index is constructed. -/
theorem run_training_fails_on_few_vectors :
    run specCollaborators .EUCLIDEAN 5 16 128 100 "index.bin" 1 [] =
      (.raised
         (.invalid_argument "insufficient training samples for requested codebook size"),
       [Event.make_shared (.ProductQuantizer 128 8 8 .EUCLIDEAN []),
        Event.train (.ProductQuantizer 128 8 8 .EUCLIDEAN []) 0 5]) := by
  decide

/-- The entries of the list of calls of `buildIndex`: after the construction, the
entry for label `i` is the call `add` with the row at element offset `dim * i`. -/
theorem buildIndexCalls_add (distance : Distance) (N M dim ef_construction : Int)
    (save_file : String) (i : Nat) (hi : i < N.toNat) :
    (buildIndexCalls distance N M dim ef_construction save_file)[i + 1]? =
      some (Event.add (dim * i) i ef_construction) := by
  unfold buildIndexCalls addCalls
  rw [List.getElem?_cons_succ,
    List.getElem?_append_left (by rw [List.length_map, List.length_range]; exact hi),
    List.getElem?_map, List.getElem?_range hi]
  rfl

/-- With the failures of the spec and `ef_construction >= 1`, none of the calls of
`buildIndex` raises. -/
theorem specCollaborators_buildIndexCalls (distance : Distance)
    (N M dim ef_construction : Int) (save_file : String) (hef : 1 ≤ ef_construction) :
    ∀ e ∈ buildIndexCalls distance N M dim ef_construction save_file,
      ∀ history, specCollaborators history e = none := by
  intro e he history
  unfold buildIndexCalls addCalls at he
  rcases List.mem_cons.mp he with rfl | he
  · rfl
  · rcases List.mem_append.mp he with he | he
    · obtain ⟨label, _, rfl⟩ := List.mem_map.mp he
      simp only [specCollaborators]
      rw [if_neg (by omega)]
    · rw [List.mem_singleton.mp he]
      rfl

/-- C5, amended: for `N >= 0` and `dim >= 0` such that no row offset `dim * label`
leaves the range of `int`, `buildIndex` makes, in this order, the construction of
one empty index with `dataset_size = N` and `max_edges = M`, the calls `add` for
the labels `0, ..., N - 1` in ascending order, each with its label, the given
`ef_construction` and the row at element offset `dim * label`, and one call
`saveIndex` with the given file name, up to the first call that raises. If none of
them raises, all `N + 2` calls are made and `buildIndex` returns; if one raises,
that exception leaves `buildIndex` and no later call is made. -/
theorem buildIndex_performs_calls_in_order (throws : Collaborators) (distance : Distance)
    (N M dim ef_construction : Int) (save_file : String) (events : List Event)
    (hN0 : 0 ≤ N) (hN : N ≤ 2147483647) (hdim : 0 ≤ dim)
    (hov : dim * (N - 1) ≤ 2147483647) :
    buildIndex throws distance N M dim ef_construction save_file events =
      perform throws (buildIndexCalls distance N M dim ef_construction save_file) events ∧
    (buildIndexCalls distance N M dim ef_construction save_file).length = N.toNat + 2 ∧
    (buildIndexCalls distance N M dim ef_construction save_file)[0]? =
      some (Event.Index_new distance N M) ∧
    (∀ i : Nat, i < N.toNat →
      (buildIndexCalls distance N M dim ef_construction save_file)[i + 1]? =
        some (Event.add (dim * i) i ef_construction)) ∧
    (buildIndexCalls distance N M dim ef_construction save_file)[N.toNat + 1]? =
      some (Event.saveIndex save_file) ∧
    ((∀ e ∈ buildIndexCalls distance N M dim ef_construction save_file,
        ∀ history, throws history e = none) →
      buildIndex throws distance N M dim ef_construction save_file events =
        (.returned (),
         events ++ buildIndexCalls distance N M dim ef_construction save_file)) ∧
    (buildIndex throws distance N M dim ef_construction save_file events =
        (.returned (),
         events ++ buildIndexCalls distance N M dim ef_construction save_file) ∨
      ∃ n c ex,
        (buildIndexCalls distance N M dim ef_construction save_file)[n]? = some c ∧
        throws (events ++
          (buildIndexCalls distance N M dim ef_construction save_file).take n) c = some ex ∧
        buildIndex throws distance N M dim ef_construction save_file events =
          (.raised ex, events ++
            (buildIndexCalls distance N M dim ef_construction save_file).take (n + 1))) := by
  have heq := buildIndex_eq_perform throws distance N M dim ef_construction save_file
    hN0 hN hdim hov events
  have hlen : (buildIndexCalls distance N M dim ef_construction save_file).length =
      N.toNat + 2 := by
    simp [buildIndexCalls, addCalls]
  refine ⟨heq, hlen, by simp [buildIndexCalls],
    fun i hi => buildIndexCalls_add _ _ _ _ _ _ i hi, ?_, ?_, ?_⟩
  · unfold buildIndexCalls
    rw [List.getElem?_cons_succ, List.getElem?_append_right (by simp [addCalls])]
    simp [addCalls]
  · intro hnone
    rw [heq]
    exact perform_of_none throws _ events hnone
  · rw [heq]
    exact perform_cases throws _ events

/-- Instance of `buildIndex_performs_calls_in_order` on four rows of two floats
with the failures of the spec and `ef_construction = 10`: no call raises. -/
theorem buildIndex_performs_calls_in_order_witness :
    ((0 : Int) ≤ 4 ∧ (4 : Int) ≤ 2147483647 ∧ (0 : Int) ≤ 2 ∧
      (2 : Int) * (4 - 1) ≤ 2147483647) ∧
    buildIndex specCollaborators (.SquaredL2Distance 2) 4 16 2 10 "index.bin" [] =
      (.returned (),
       [] ++ buildIndexCalls (.SquaredL2Distance 2) 4 16 2 10 "index.bin") :=
  ⟨by decide,
   (buildIndex_performs_calls_in_order specCollaborators (.SquaredL2Distance 2) 4 16 2 10
      "index.bin" [] (by decide) (by decide) (by decide) (by decide)).2.2.2.2.2.1
      (specCollaborators_buildIndexCalls _ _ _ _ _ _ (by decide))⟩

/-- C5 fails in two ways. With the failures of the spec and `ef_construction = 0`,
the first `add` raises: of the two rows only one is passed to `add`, and
`saveIndex` is not called. With `N = 16777217` and `dim = 128`, after the
construction and the calls `add` for the labels below 16777216, the row offset
`128 * 16777216 = 2147483648` of the next label is out of the range of `int` and
the behaviour is undefined. -/
theorem buildIndex_raises_or_overflows :
    buildIndex specCollaborators (.SquaredL2Distance 2) 2 16 2 0 "index.bin" [] =
      (.raised (.invalid_argument "efConstruction < 1"),
       [Event.Index_new (.SquaredL2Distance 2) 2 16, Event.add 0 0 0]) ∧
    buildIndex specCollaborators (.SquaredL2Distance 128) 16777217 16 128 100
        "index.bin" [] =
      (.undefined,
       Event.Index_new (.SquaredL2Distance 128) 16777217 16 ::
         addCalls 128 100 16777216) := by
  refine ⟨by decide, ?_⟩
  have hsteps := buildIndexLoop_steps specCollaborators 16777217 128 100 (by decide)
    (by decide) 16777216 (by decide) (fun label hl => by omega) 2130706432 16777216 0
    (by decide) ([] ++ [Event.Index_new (.SquaredL2Distance 128) 16777217 16])
  have hadds : perform specCollaborators
      ((List.range' 0 16777216).map fun label : Nat => Event.add (128 * label) label 100)
      ([] ++ [Event.Index_new (.SquaredL2Distance 128) 16777217 16]) =
      (.returned (), ([] ++ [Event.Index_new (.SquaredL2Distance 128) 16777217 16]) ++
        (List.range' 0 16777216).map fun label : Nat => Event.add (128 * label) label 100) := by
    apply perform_of_none
    intro e he history
    obtain ⟨label, _, rfl⟩ := List.mem_map.mp he
    rfl
  have hover := buildIndexLoop_overflow specCollaborators 16777217 128 100 2130706431
    ((16777216 : Nat) : Int)
    (([] ++ [Event.Index_new (.SquaredL2Distance 128) 16777217 16]) ++
      (List.range' 0 16777216).map fun label : Nat => Event.add (128 * label) label 100)
    (by decide) (by decide)
  rw [hadds] at hsteps
  have hloop : buildIndexLoop specCollaborators 16777217 128 100 (2 ^ 31) 0
      ([] ++ [Event.Index_new (.SquaredL2Distance 128) 16777217 16]) =
      (.undefined, ([] ++ [Event.Index_new (.SquaredL2Distance 128) 16777217 16]) ++
        (List.range' 0 16777216).map fun label : Nat => Event.add (128 * label) label 100) :=
    hsteps.trans hover
  unfold buildIndex
  rw [call_none _ (rfl : specCollaborators []
    (Event.Index_new (.SquaredL2Distance 128) 16777217 16) = none), hloop]
  simp only [andThen, addCalls, List.range_eq_range', List.nil_append, List.singleton_append]

end construct_npy
